import Mathlib

/-!
Shallow embedding of the pincho-go client library core: tag normalization
(`NormalizeTags`), header parsing (`parseRetryAfter`, `parseIntHeader`,
`parseUnixTimestamp`, `parseRateLimitHeaders`), the error taxonomy and its
retryability predicate, the backoff calculator inside `retryWithBackoff`
(including Go int64 wrap-around of the nanosecond arithmetic), the retry
orchestrator loop, the response classifier, and the early-validation phase
of `Send`. Go strings are modelled as Lean `String` (a list of characters);
Go `nil` slices returned by `NormalizeTags` are modelled as `[]`, which is
faithful because the function never returns a non-nil empty slice. Go `int`
and `time.Duration` are modelled as `Int` with explicit wrap-around modulo
2^64 where the source can overflow.
-/

namespace Pincho

/-- The code points stripped by Go `strings.TrimSpace` in its ASCII/Latin-1
fast path (`unicode.IsSpace`): space, \t, \n, \v, \f, \r, NEL (U+0085) and
NBSP (U+00A0). Further Unicode space code points exist in Go; none of them
is a tag character, which is all the proofs below rely on. -/
def isGoSpace (c : Char) : Bool :=
  c.toNat == 32 || c.toNat == 9 || c.toNat == 10 || c.toNat == 11 ||
  c.toNat == 12 || c.toNat == 13 || c.toNat == 133 || c.toNat == 160

/-- The ASCII fragment of Go `strings.ToLower`: uppercase A-Z maps down by
32, everything else is fixed. Non-ASCII case mappings in Go never produce a
character of the tag alphabet, so the claims below are insensitive to them. -/
def goToLowerChar (c : Char) : Char :=
  if 65 ≤ c.toNat ∧ c.toNat ≤ 90 then Char.ofNat (c.toNat + 32) else c

/-- Go `strings.TrimSpace tag`: drop leading and trailing white space. -/
def goTrimSpace (s : String) : String :=
  String.mk (((s.data.dropWhile isGoSpace).reverse.dropWhile isGoSpace).reverse)

/-- Go `strings.ToLower s` (ASCII fragment, see `goToLowerChar`). -/
def goToLower (s : String) : String :=
  String.mk (s.data.map goToLowerChar)

/-- One character of the class `[a-z0-9_-]` from the compiled pattern
`tagPattern` in the validation source file. -/
def isTagChar (c : Char) : Bool :=
  (decide (97 ≤ c.toNat) && decide (c.toNat ≤ 122)) ||
  (decide (48 ≤ c.toNat) && decide (c.toNat ≤ 57)) ||
  c.toNat == 95 || c.toNat == 45

/-- `tagPattern.MatchString s` for the anchored pattern `^[a-z0-9_-]+$`:
the string is non-empty and every character is in the class. -/
def tagPatternMatch (s : String) : Bool :=
  !s.data.isEmpty && s.data.all isTagChar

/-- `strings.ToLower(strings.TrimSpace(tag))`, the normalized form computed
at the top of the `NormalizeTags` loop body. -/
def normTag (tag : String) : String :=
  goToLower (goTrimSpace tag)

/-- The `for` loop of `NormalizeTags`: walk the input tags carrying the
`seen` set (modelled as the list of already-appended normalized tags; the
Go code only inserts into `seen` when it appends). Skips empty tags, tags
already seen, and tags that fail the character-class pattern; `normTag tag`
is the local variable `normalizedTag` of the Go loop body. -/
def normalizeLoop : List String → List String → List String
  | [], _ => []
  | tag :: rest, seen =>
    if normTag tag = "" then normalizeLoop rest seen
    else if seen.contains (normTag tag) then normalizeLoop rest seen
    else if !tagPatternMatch (normTag tag) then normalizeLoop rest seen
    else normTag tag :: normalizeLoop rest (normTag tag :: seen)

/-- `NormalizeTags` from the validation source file. The Go function
returns `nil` when the input is nil/empty and when nothing survives the
loop; both are modelled as `[]` (the function never returns a non-nil empty
slice, so `[]` uniquely stands for `nil` in its output). -/
def NormalizeTags (tags : List String) : List String :=
  if tags.isEmpty then []
  else normalizeLoop tags []

/-- The `tags` field of the transmitted body in `Send` (client.go): the
field is present exactly when `NormalizeTags` returned non-nil, and then
carries the normalized list unchanged. -/
def sendTagsField (tags : List String) : Option (List String) :=
  let normalizedTags := NormalizeTags tags
  if normalizedTags.isEmpty then none else some normalizedTags

/-- Go `strconv.Atoi`: optional single sign, at least one decimal digit,
`none` on empty/malformed input and on int64 range overflow (the callers
treat a range error exactly like a syntax error). -/
def goAtoi (s : String) : Option Int :=
  match s.data with
  | [] => none
  | c :: cs =>
    let signAndDigits :=
      if c = '-' then (true, cs)
      else if c = '+' then (false, cs)
      else (false, c :: cs)
    let neg := signAndDigits.1
    let digits := signAndDigits.2
    if digits.isEmpty then none
    else if digits.all (fun d => decide (48 ≤ d.toNat) && decide (d.toNat ≤ 57)) then
      let magnitude : Nat := digits.foldl (fun acc d => acc * 10 + (d.toNat - 48)) 0
      let value : Int := if neg then -(magnitude : Int) else (magnitude : Int)
      if value < -(2 ^ 63) ∨ (2 ^ 63 - 1 : Int) < value then none else some value
    else none

/-- `parseRetryAfter` (client.go): 0 when the header is missing, malformed
or negative; otherwise the parsed seconds value. -/
def parseRetryAfter (header : String) : Int :=
  if header = "" then 0
  else
    match goAtoi header with
    | none => 0
    | some seconds => if seconds < 0 then 0 else seconds

/-- `parseIntHeader` (client.go): 0 when the header is missing, malformed
or negative; otherwise the parsed value. -/
def parseIntHeader (header : String) : Int :=
  if header = "" then 0
  else
    match goAtoi header with
    | none => 0
    | some value => if value < 0 then 0 else value

/-- `parseUnixTimestamp` (client.go). `none` models the zero `time.Time{}`
returned for a missing/malformed/negative header, `some ts` models
`time.Unix(ts, 0)`; note `time.Unix(0, 0)` is NOT the zero time, so a
literal header value "0" yields `some 0`, distinct from `none`. -/
def parseUnixTimestamp (header : String) : Option Int :=
  if header = "" then none
  else
    match goAtoi header with
    | none => none
    | some ts => if ts < 0 then none else some ts

/-- `RateLimitInfo` (types.go): `reset` as in `parseUnixTimestamp`. -/
structure RateLimitInfo where
  limit : Int
  remaining : Int
  reset : Option Int
deriving DecidableEq

/-- `parseRateLimitHeaders` (client.go): parse the three headers, and
replace the stored snapshot wholesale iff `limit > 0 || remaining > 0 ||
!reset.IsZero()`; otherwise leave the previous snapshot untouched. -/
def parseRateLimitHeaders (lastRateLimit : Option RateLimitInfo)
    (limitHeader remainingHeader resetHeader : String) : Option RateLimitInfo :=
  let limit := parseIntHeader limitHeader
  let remaining := parseIntHeader remainingHeader
  let reset := parseUnixTimestamp resetHeader
  if 0 < limit ∨ 0 < remaining ∨ reset ≠ none then
    some ⟨limit, remaining, reset⟩
  else lastRateLimit

/-- Modelled from the spec claim wording only (for comparison with the
source behaviour, never used in a source definition): a rate-limit header
"parses successfully" when it is present and is a valid non-negative
decimal integer. -/
def specHeaderParses (header : String) : Bool :=
  !(header == "") &&
  (match goAtoi header with
   | some v => decide (0 ≤ v)
   | none => false)

/-- The closed error taxonomy (errors source file, the variant the clients
compile against): one variant per kind; `rateLimit` additionally carries
the parsed `RetryAfter` seconds that client.go stores on construction. -/
inductive PError where
  | validation (message : String) (statusCode : Int)
  | auth (message : String) (statusCode : Int)
  | rateLimit (message : String) (statusCode : Int) (retryAfter : Int)
  | server (message : String) (statusCode : Int)
  | network (message : String)
  | generic (message : String) (statusCode : Int)
deriving DecidableEq

/-- The per-kind `IsRetryable` methods of the errors source file, gathered
over the tagged union: Validation/Auth/Generic return `false`,
RateLimit/Server/Network return `true`, each a constant of the kind. -/
def isRetryable : PError → Bool
  | .validation _ _ => false
  | .auth _ _ => false
  | .rateLimit _ _ _ => true
  | .server _ _ => true
  | .network _ => true
  | .generic _ _ => false

/-- `IsErrorRetryable` (errors source file): the type switch succeeds for
every kind of the taxonomy (all implement `RetryableError`), so it just
dispatches to the kind's `IsRetryable` method. -/
def IsErrorRetryable (err : PError) : Bool :=
  isRetryable err

/-- The legacy generic `Error.IsRetryable` from the older errors variant
kept in the repository: `e.StatusCode == 0 || e.StatusCode >= 500`. -/
def legacyErrorIsRetryable (statusCode : Int) : Bool :=
  decide (statusCode = 0) || decide (500 ≤ statusCode)

/-- Two complement wrap-around of a mathematical integer into the int64
range, as performed by Go arithmetic on `int` / `time.Duration`. -/
def wrap64 (x : Int) : Int :=
  (x + 2 ^ 63) % 2 ^ 64 - 2 ^ 63

/-- Go `1 << uint(n)` at type `int`: shifts of 64 or more produce 0, a
shift of 63 wraps to the minimum int64, smaller shifts are exact. -/
def goShl1 (n : Nat) : Int :=
  if 64 ≤ n then 0 else wrap64 (2 ^ n)

/-- `time.Second` in nanoseconds, the unit of `time.Duration`. -/
def secondNs : Int := 1000000000

/-- `MaxBackoff` (client.go): 30 seconds, in nanoseconds. -/
def MaxBackoffNs : Int := 30 * secondNs

/-- The backoff computation of `retryWithBackoff` (client.go, the block
between the retryability checks and the cancellable wait), producing the
`time.Duration` in nanoseconds. A `RateLimitError` with `RetryAfter > 0`
uses the server hint; a `RateLimitError` without one uses
`5*(1<<attempt)` seconds; every other (retryable) error uses
`1<<attempt` seconds; each result is replaced by `MaxBackoff` when it
exceeds it. All arithmetic wraps in int64 exactly as in Go. -/
def computeBackoff (attempt : Nat) (err : PError) : Int :=
  match err with
  | .rateLimit _ _ retryAfter =>
    if 0 < retryAfter then
      let backoff := wrap64 (retryAfter * secondNs)
      if MaxBackoffNs < backoff then MaxBackoffNs else backoff
    else
      let backoff := wrap64 (wrap64 (5 * goShl1 attempt) * secondNs)
      if MaxBackoffNs < backoff then MaxBackoffNs else backoff
  | _ =>
    let backoff := wrap64 (goShl1 attempt * secondNs)
    if MaxBackoffNs < backoff then MaxBackoffNs else backoff

/-- Terminal outcome of one logical call: success, the last HTTP-derived
error, or the context's cancellation error (`ctx.Err()`). -/
inductive Outcome where
  | success
  | failed (err : PError)
  | cancelled
deriving DecidableEq

/-- The `for attempt := 0; attempt <= c.MaxRetries; attempt++` loop of
`retryWithBackoff`, with fuel `maxRetries + 1 - attempt`. `ops i` is the
outcome of invocation `i` of `operation` (`none` = success); `cancel i`
tells whether `ctx.Done()` wins the `select` during the backoff wait that
follows a failed attempt `i`. The second component counts invocations of
`operation`. The fuel-0 case is Go line `return lastErr` after the loop,
unreachable from `retryWithBackoff` itself. -/
def retryAux (ops : Nat → Option PError) (cancel : Nat → Bool)
    (maxRetries : Nat) : Nat → Nat → Option PError → Outcome × Nat
  | 0, attempt, lastErr =>
    (match lastErr with
     | none => Outcome.success
     | some err => Outcome.failed err, attempt)
  | fuel + 1, attempt, _ =>
    match ops attempt with
    | none => (Outcome.success, attempt + 1)
    | some err =>
      if !IsErrorRetryable err then (Outcome.failed err, attempt + 1)
      else if attempt = maxRetries then (Outcome.failed err, attempt + 1)
      else if cancel attempt then (Outcome.cancelled, attempt + 1)
      else retryAux ops cancel maxRetries fuel (attempt + 1) (some err)

/-- `retryWithBackoff` (client.go): run the loop from attempt 0. -/
def retryWithBackoff (ops : Nat → Option PError) (cancel : Nat → Bool)
    (maxRetries : Nat) : Outcome × Nat :=
  retryAux ops cancel maxRetries (maxRetries + 1) 0 none

/-- The status-code switch of the `Send` request closure (client.go):
400 ↦ Validation, 401/403 ↦ Auth, 429 ↦ RateLimit with the parsed
`Retry-After` header, other ≥500 ↦ Server, any other ↦ Generic. -/
def classifyStatus (statusCode : Int) (errorMsg : String)
    (retryAfterHeader : String) : PError :=
  if statusCode = 400 then .validation errorMsg statusCode
  else if statusCode = 401 ∨ statusCode = 403 then .auth errorMsg statusCode
  else if statusCode = 429 then
    .rateLimit errorMsg statusCode (parseRetryAfter retryAfterHeader)
  else if 500 ≤ statusCode then .server errorMsg statusCode
  else .generic errorMsg statusCode

/-- The tail of the `Send` request closure (client.go): statuses ≥ 400 are
classified into an error; otherwise the attempt is a success, and a failed
`json.Unmarshal` of the success body is explicitly non-fatal (the closure
returns nil on both branches). -/
def handleResponse (statusCode : Int) (errorMsg : String)
    (retryAfterHeader : String) (successBodyParses : Bool) : Option PError :=
  if 400 ≤ statusCode then
    some (classifyStatus statusCode errorMsg retryAfterHeader)
  else if successBodyParses then none
  else none

/-- `SendOptions` (types.go). -/
structure SendOptions where
  title : String
  message : String
  type : String
  tags : List String
  imageURL : String
  actionURL : String
  encryptionPassword : String
deriving DecidableEq

/-- The validation prefix of `Send` (client.go): nil options and an empty
title are rejected with a `ValidationError` before anything else runs.
`rest` abstracts the remainder of `Send` (normalization, encryption,
marshalling and the retry loop over the network attempts) as a
continuation receiving the validated options; the second component of the
result counts HTTP attempts, 0 on the early returns. -/
def send (options : Option SendOptions)
    (rest : SendOptions → Outcome × Nat) : Outcome × Nat :=
  match options with
  | none => (Outcome.failed (.validation "options cannot be nil" 0), 0)
  | some o =>
    if o.title = "" then
      (Outcome.failed (.validation "title is required" 0), 0)
    else rest o

/-- A server that fails every attempt with HTTP 500 (witness data). -/
def alwaysServerErr : Nat → Option PError :=
  fun _ => some (.server "internal" 500)

/-- A context that is never cancelled (witness data). -/
def neverCancel : Nat → Bool :=
  fun _ => false

/-- A context whose cancellation fires during the backoff wait after
attempt 1 (witness data). -/
def cancelAfterSecond : Nat → Bool :=
  fun i => i == 1

/-- Eleven pairwise distinct, already-normalized tags (failing input for
the documented 10-tag cap). -/
def elevenTags : List String :=
  ["t0", "t1", "t2", "t3", "t4", "t5", "t6", "t7", "t8", "t9", "t10"]

/-! ## Theorems -/

theorem wrap64_eq_self {x : Int} (h1 : -(2 ^ 63) ≤ x) (h2 : x < 2 ^ 63) :
    wrap64 x = x := by
  unfold wrap64
  rw [Int.emod_eq_of_lt (by omega) (by omega)]
  omega

/-- C2 (amended): in the errors variant that the client source files
compile against, `IsRetryable` is a constant function of the error kind
alone — Validation, Auth and Generic return false, RateLimit, Server and
Network return true — independent of the carried status code. The legacy
errors variant kept in the repository violates this (see the
counterexample). -/
theorem isRetryable_constant_per_kind :
    (∀ msg st, isRetryable (.validation msg st) = false) ∧
    (∀ msg st, isRetryable (.auth msg st) = false) ∧
    (∀ msg st, isRetryable (.generic msg st) = false) ∧
    (∀ msg st ra, isRetryable (.rateLimit msg st ra) = true) ∧
    (∀ msg st, isRetryable (.server msg st) = true) ∧
    (∀ msg, isRetryable (.network msg) = true) :=
  ⟨fun _ _ => rfl, fun _ _ => rfl, fun _ _ => rfl, fun _ _ _ => rfl,
   fun _ _ => rfl, fun _ => rfl⟩

/-- C2 (counterexample): the legacy generic `Error.IsRetryable` in the
older errors variant kept in the repository returns true at status 500 and
false at status 404 — it is not the constant false the claim asserts for
the Generic kind, and its value varies with the status code. -/
theorem legacy_generic_isRetryable_varies :
    legacyErrorIsRetryable 500 = true ∧ legacyErrorIsRetryable 404 = false := by
  decide

/-- C6: an attempt that fails with a non-retryable error is returned
immediately as the terminal outcome — exactly one attempt, no wait, for
every context and retry budget; and HTTP 401 classifies to an Auth-kind
error, which is non-retryable. -/
theorem nonretryable_immediate_return :
    (∀ ops cancel maxRetries err, ops 0 = some err → IsErrorRetryable err = false →
      retryWithBackoff ops cancel maxRetries = (Outcome.failed err, 1)) ∧
    (∀ msg hdr, classifyStatus 401 msg hdr = PError.auth msg 401 ∧
      IsErrorRetryable (PError.auth msg 401) = false) := by
  constructor
  · intro ops cancel maxRetries err h hr
    simp [retryWithBackoff, retryAux, h, hr]
  · intro msg hdr
    refine ⟨?_, rfl⟩
    norm_num [classifyStatus]

/-- C6 (witness): a server that always answers HTTP 401 causes exactly one
attempt and an immediate Auth failure. -/
theorem nonretryable_immediate_return_witness :
    retryWithBackoff (fun _ => some (PError.auth "denied" 401)) neverCancel 5 =
      (Outcome.failed (PError.auth "denied" 401), 1) :=
  nonretryable_immediate_return.1 _ neverCancel 5 _ rfl rfl

/-- C7 (code bug evidence): eleven pairwise distinct valid tags survive
`NormalizeTags` unchanged and the transmitted `tags` field carries all
eleven — no 10-tag cap is applied anywhere on the path, contrary to the
repository documentation of `NormalizeTags`. -/
theorem normalizeTags_no_cap_eleven :
    sendTagsField elevenTags = some elevenTags ∧ elevenTags.length = 11 := by
  decide

/-- C8: `Send` called with nil options or an empty title returns a
Validation error with zero HTTP attempts, independently of everything the
rest of the call (normalization, encryption, retry loop, network) would
do. -/
theorem send_validation_early_return :
    (∀ rest, send none rest =
      (Outcome.failed (.validation "options cannot be nil" 0), 0)) ∧
    (∀ rest o, o.title = "" → send (some o) rest =
      (Outcome.failed (.validation "title is required" 0), 0)) := by
  constructor
  · intro rest; rfl
  · intro rest o h; simp [send, h]

/-- C8 (witness): an options value with an empty title. -/
theorem send_validation_early_return_witness :
    send (some ⟨"", "body", "", [], "", "", ""⟩) (fun _ => (Outcome.success, 1)) =
      (Outcome.failed (.validation "title is required" 0), 0) :=
  send_validation_early_return.2 _ _ rfl

/-- C9: every response with a 2xx status code is treated as success; in
particular a failed parse of the structured success body still yields
success, never an error. -/
theorem success_status_never_error (statusCode : Int)
    (errorMsg retryAfterHeader : String) (successBodyParses : Bool)
    (h200 : 200 ≤ statusCode) (h299 : statusCode ≤ 299) :
    handleResponse statusCode errorMsg retryAfterHeader successBodyParses = none := by
  unfold handleResponse
  rw [if_neg (by omega)]
  split <;> rfl

/-- C9 (witness): a bare HTTP 200 whose body fails to parse. -/
theorem success_status_never_error_witness :
    handleResponse 200 "" "" false = none :=
  success_status_never_error 200 "" "" false (by norm_num) (by norm_num)

theorem retryAux_count_le (ops : Nat → Option PError) (cancel : Nat → Bool)
    (maxRetries : Nat) :
    ∀ fuel attempt lastErr,
      (retryAux ops cancel maxRetries fuel attempt lastErr).2 ≤ attempt + fuel := by
  intro fuel
  induction fuel with
  | zero =>
    intro attempt lastErr
    simp [retryAux]
  | succ n ih =>
    intro attempt lastErr
    unfold retryAux
    cases hop : ops attempt with
    | none =>
      show attempt + 1 ≤ attempt + (n + 1)
      omega
    | some err =>
      dsimp only
      split_ifs with h1 h2 h3
      · show attempt + 1 ≤ attempt + (n + 1)
        omega
      · show attempt + 1 ≤ attempt + (n + 1)
        omega
      · show attempt + 1 ≤ attempt + (n + 1)
        omega
      · calc (retryAux ops cancel maxRetries n (attempt + 1) (some err)).2
            ≤ (attempt + 1) + n := ih (attempt + 1) (some err)
          _ = attempt + (n + 1) := by omega

theorem retryAux_failed_last (ops : Nat → Option PError) (cancel : Nat → Bool)
    (maxRetries : Nat) :
    ∀ fuel attempt lastErr,
      (∀ e0, lastErr = some e0 → 1 ≤ attempt ∧ ops (attempt - 1) = some e0) →
      ∀ err, (retryAux ops cancel maxRetries fuel attempt lastErr).1 = Outcome.failed err →
        1 ≤ (retryAux ops cancel maxRetries fuel attempt lastErr).2 ∧
        ops ((retryAux ops cancel maxRetries fuel attempt lastErr).2 - 1) = some err := by
  intro fuel
  induction fuel with
  | zero =>
    intro attempt lastErr hinv err hres
    cases hl : lastErr with
    | none => rw [hl] at hres; simp [retryAux] at hres
    | some e0 =>
      rw [hl] at hres
      simp only [retryAux] at hres ⊢
      have he : e0 = err := by
        simpa using hres
      subst he
      exact hinv e0 hl
  | succ n ih =>
    intro attempt lastErr hinv err hres
    unfold retryAux at hres ⊢
    cases hop : ops attempt with
    | none =>
      rw [hop] at hres
      dsimp only at hres
      exact absurd hres (by simp)
    | some e0 =>
      rw [hop] at hres
      dsimp only at hres ⊢
      split_ifs at hres ⊢ with h1 h2 h3
      · have he : e0 = err := by simpa using hres
        subst he
        refine ⟨by omega, ?_⟩
        show ops (attempt + 1 - 1) = some e0
        simpa using hop
      · have he : e0 = err := by simpa using hres
        subst he
        refine ⟨by omega, ?_⟩
        show ops (attempt + 1 - 1) = some e0
        simpa using hop
      · exact ih (attempt + 1) (some e0)
          (fun e1 he1 => by
            simp only [Option.some.injEq] at he1
            subst he1
            exact ⟨by omega, by simpa using hop⟩)
          err hres

/-- C3: one logical call invokes the operation at most `maxRetries + 1`
times before returning a terminal outcome, and whenever the terminal
outcome is an HTTP-derived failure, the returned error is exactly the
error of the most recent (last-invoked) failed attempt — earlier errors
are discarded. -/
theorem retry_attempt_bound_and_last_error (ops : Nat → Option PError)
    (cancel : Nat → Bool) (maxRetries : Nat) :
    (retryWithBackoff ops cancel maxRetries).2 ≤ maxRetries + 1 ∧
    ∀ err, (retryWithBackoff ops cancel maxRetries).1 = Outcome.failed err →
      1 ≤ (retryWithBackoff ops cancel maxRetries).2 ∧
      ops ((retryWithBackoff ops cancel maxRetries).2 - 1) = some err := by
  constructor
  · have h := retryAux_count_le ops cancel maxRetries (maxRetries + 1) 0 none
    simpa [retryWithBackoff] using h
  · intro err hres
    exact retryAux_failed_last ops cancel maxRetries (maxRetries + 1) 0 none
      (fun e0 he0 => by simp at he0) err hres

/-- C3 (witness): three attempts for `maxRetries = 2` against a server
that always fails with HTTP 500, and the returned error is that of the
third (last) attempt. -/
theorem retry_attempt_bound_and_last_error_witness :
    (retryWithBackoff alwaysServerErr neverCancel 2).2 ≤ 3 ∧
    (1 ≤ (retryWithBackoff alwaysServerErr neverCancel 2).2 ∧
      alwaysServerErr ((retryWithBackoff alwaysServerErr neverCancel 2).2 - 1) =
        some (PError.server "internal" 500)) :=
  ⟨(retry_attempt_bound_and_last_error alwaysServerErr neverCancel 2).1,
   (retry_attempt_bound_and_last_error alwaysServerErr neverCancel 2).2
     (PError.server "internal" 500) (by decide)⟩

theorem retryAux_cancelled (ops : Nat → Option PError) (cancel : Nat → Bool)
    (maxRetries i : Nat)
    (hfail : ∀ j, j ≤ i → ∃ e, ops j = some e ∧ IsErrorRetryable e = true)
    (hnc : ∀ j, j < i → cancel j = false)
    (hc : cancel i = true) (hiR : i < maxRetries) :
    ∀ fuel attempt lastErr, attempt ≤ i → i - attempt < fuel →
      retryAux ops cancel maxRetries fuel attempt lastErr =
        (Outcome.cancelled, i + 1) := by
  intro fuel
  induction fuel with
  | zero => intro attempt lastErr h1 h2; omega
  | succ n ih =>
    intro attempt lastErr hai hfu
    obtain ⟨e, hop, hret⟩ := hfail attempt hai
    unfold retryAux
    rw [hop]
    dsimp only
    rw [if_neg (by simp [hret])]
    rw [if_neg (by omega : ¬ attempt = maxRetries)]
    by_cases hei : attempt = i
    · subst hei
      rw [if_pos hc]
    · have hlt : attempt < i := by omega
      rw [if_neg (by simp [hnc attempt hlt])]
      exact ih (attempt + 1) (some e) (by omega) (by omega)

/-- C5: if the caller's cancellation fires during the backoff wait that
follows failed attempt `i` (every attempt up to `i` having failed
retryably and no earlier wait having been cancelled), the call terminates
with the cancellation outcome — not the pending HTTP-derived error — after
exactly `i + 1` attempts: no further attempt is ever started. -/
theorem cancel_during_backoff (ops : Nat → Option PError) (cancel : Nat → Bool)
    (maxRetries i : Nat)
    (hfail : ∀ j, j ≤ i → ∃ e, ops j = some e ∧ IsErrorRetryable e = true)
    (hnc : ∀ j, j < i → cancel j = false)
    (hc : cancel i = true) (hiR : i < maxRetries) :
    retryWithBackoff ops cancel maxRetries = (Outcome.cancelled, i + 1) :=
  retryAux_cancelled ops cancel maxRetries i hfail hnc hc hiR
    (maxRetries + 1) 0 none (Nat.zero_le i) (by omega)

/-- C5 (witness): cancellation during the backoff after the second failed
attempt of an always-failing server, with budget for more retries. -/
theorem cancel_during_backoff_witness :
    retryWithBackoff alwaysServerErr cancelAfterSecond 3 = (Outcome.cancelled, 2) :=
  cancel_during_backoff alwaysServerErr cancelAfterSecond 3 1
    (fun _ _ => ⟨PError.server "internal" 500, rfl, rfl⟩)
    (by decide) rfl (by decide)

/-- C1 (amended): the claimed backoff formulas hold exactly on the range
where the Go int64 nanosecond arithmetic does not overflow — attempt
indices up to 33 for Network/Server, up to 30 for RateLimit without a
positive hint, and positive hints up to 9223372036 seconds; and the
`Retry-After` parser maps absent, non-numeric and non-positive header
values into the no-hint case (0) and positive numeric ones to their
value. Outside those ranges the computed duration wraps (see the
counterexample). -/
theorem backoff_formula_amended :
    (∀ n msg, n ≤ 33 →
      computeBackoff n (.network msg) = min ((2 : Int) ^ n) 30 * secondNs) ∧
    (∀ n msg st, n ≤ 33 →
      computeBackoff n (.server msg st) = min ((2 : Int) ^ n) 30 * secondNs) ∧
    (∀ n msg st hint, hint ≤ 0 → n ≤ 30 →
      computeBackoff n (.rateLimit msg st hint) =
        min (5 * (2 : Int) ^ n) 30 * secondNs) ∧
    (∀ n msg st hint, 0 < hint → hint ≤ 9223372036 →
      computeBackoff n (.rateLimit msg st hint) = min hint 30 * secondNs) ∧
    (∀ hdr, goAtoi hdr = none → parseRetryAfter hdr = 0) ∧
    (∀ hdr v, goAtoi hdr = some v → v ≤ 0 → parseRetryAfter hdr = 0) ∧
    (∀ hdr v, goAtoi hdr = some v → 0 ≤ v → parseRetryAfter hdr = v) := by
  have hsec : (0 : Int) < secondNs := by norm_num [secondNs]
  have hatoiEmpty : goAtoi "" = none := rfl
  refine ⟨?_, ?_, ?_, ?_, ?_, ?_, ?_⟩
  · intro n msg hn
    have hmsg : computeBackoff n (PError.network msg) =
        computeBackoff n (PError.network "") := rfl
    rw [hmsg]
    interval_cases n <;> decide
  · intro n msg st hn
    have hmsg : computeBackoff n (PError.server msg st) =
        computeBackoff n (PError.server "" 0) := rfl
    rw [hmsg]
    interval_cases n <;> decide
  · intro n msg st hint hh hn
    simp only [computeBackoff]
    rw [if_neg (by omega : ¬ 0 < hint)]
    interval_cases n <;> decide
  · intro n msg st hint h1 h2
    simp only [computeBackoff]
    rw [if_pos h1]
    have hfit : wrap64 (hint * secondNs) = hint * secondNs := by
      apply wrap64_eq_self
      · have : (0 : Int) ≤ hint * secondNs :=
          mul_nonneg (le_of_lt h1) (le_of_lt hsec)
        omega
      · have hb : hint * secondNs ≤ 9223372036 * secondNs :=
          mul_le_mul_of_nonneg_right h2 (le_of_lt hsec)
        have : (9223372036 : Int) * secondNs < 2 ^ 63 := by norm_num [secondNs]
        omega
    rw [hfit]
    by_cases h30 : hint ≤ 30
    · rw [if_neg (by
        have := mul_le_mul_of_nonneg_right h30 (le_of_lt hsec)
        simp only [MaxBackoffNs]
        omega)]
      rw [min_eq_left h30]
    · push_neg at h30
      rw [if_pos (by
        have := mul_lt_mul_of_pos_right h30 hsec
        simp only [MaxBackoffNs]
        omega)]
      rw [min_eq_right (le_of_lt h30)]
      rfl
  · intro hdr h
    by_cases he : hdr = ""
    · simp [parseRetryAfter, he]
    · simp [parseRetryAfter, he, h]
  · intro hdr v h hv
    have he : hdr ≠ "" := by
      intro hcon
      rw [hcon, hatoiEmpty] at h
      cases h
    simp only [parseRetryAfter, if_neg he, h]
    rcases lt_or_eq_of_le hv with hlt | heq
    · rw [if_pos hlt]
    · rw [if_neg (by omega)]
      omega
  · intro hdr v h hv
    have he : hdr ≠ "" := by
      intro hcon
      rw [hcon, hatoiEmpty] at h
      cases h
    simp only [parseRetryAfter, if_neg he, h]
    rw [if_neg (by omega)]

/-- C1 (counterexample): at attempt index 34 the Network backoff does not
equal the claimed `min(2^34, 30)` seconds — the int64 nanosecond product
wraps to a negative duration, which the cap comparison then leaves
untouched (and which Go treats as an immediate, zero-length wait). -/
theorem backoff_overflow_at_34 :
    computeBackoff 34 (PError.network "request failed") ≠
      min ((2 : Int) ^ 34) 30 * secondNs ∧
    computeBackoff 34 (PError.network "request failed") < 0 := by
  decide

/-- C1 (witness): concrete instances of every amended conjunct. -/
theorem backoff_formula_amended_witness :
    computeBackoff 2 (PError.network "m") = min ((2 : Int) ^ 2) 30 * secondNs ∧
    computeBackoff 6 (PError.server "m" 502) = min ((2 : Int) ^ 6) 30 * secondNs ∧
    computeBackoff 1 (PError.rateLimit "m" 429 0) =
      min (5 * (2 : Int) ^ 1) 30 * secondNs ∧
    computeBackoff 9 (PError.rateLimit "m" 429 2) = min (2 : Int) 30 * secondNs ∧
    parseRetryAfter "x2" = 0 ∧ parseRetryAfter "-3" = 0 ∧ parseRetryAfter "7" = 7 :=
  ⟨backoff_formula_amended.1 2 "m" (by norm_num),
   backoff_formula_amended.2.1 6 "m" 502 (by norm_num),
   backoff_formula_amended.2.2.1 1 "m" 429 0 (by norm_num) (by norm_num),
   backoff_formula_amended.2.2.2.1 9 "m" 429 2 (by norm_num) (by norm_num),
   backoff_formula_amended.2.2.2.2.1 "x2" (by decide),
   backoff_formula_amended.2.2.2.2.2.1 "-3" (-3) (by decide) (by norm_num),
   backoff_formula_amended.2.2.2.2.2.2 "7" 7 (by decide) (by norm_num)⟩

/-- C4 (amended): after a successful response the stored snapshot is
replaced wholesale — independently of the previous snapshot, with no field
merged from it — exactly when one of the two integer headers parses to a
strictly positive value or the reset header parses to a valid timestamp;
otherwise it is left completely unchanged. In particular a literal "0"
limit/remaining header parses successfully yet counts as absent (see the
counterexample). -/
theorem rateLimitHeaders_update_amended
    (prev : Option RateLimitInfo) (h1 h2 h3 : String) :
    ((0 < parseIntHeader h1 ∨ 0 < parseIntHeader h2 ∨ parseUnixTimestamp h3 ≠ none) →
      ∀ prev2, parseRateLimitHeaders prev2 h1 h2 h3 =
        some ⟨parseIntHeader h1, parseIntHeader h2, parseUnixTimestamp h3⟩) ∧
    (parseIntHeader h1 ≤ 0 → parseIntHeader h2 ≤ 0 → parseUnixTimestamp h3 = none →
      parseRateLimitHeaders prev h1 h2 h3 = prev) ∧
    (0 < parseIntHeader h1 ↔ ∃ v, goAtoi h1 = some v ∧ 0 < v) := by
  refine ⟨?_, ?_, ?_⟩
  · intro hcond prev2
    simp only [parseRateLimitHeaders]
    rw [if_pos hcond]
  · intro ha hb hc
    simp only [parseRateLimitHeaders]
    rw [if_neg (by
      push_neg
      exact ⟨by omega, by omega, hc⟩)]
  · constructor
    · intro hpos
      by_cases he : h1 = ""
      · rw [he] at hpos
        exact absurd hpos (by decide)
      · simp only [parseIntHeader, if_neg he] at hpos
        cases hr : goAtoi h1 with
        | none =>
          rw [hr] at hpos
          dsimp only at hpos
          exact absurd hpos (by decide)
        | some v =>
          rw [hr] at hpos
          dsimp only at hpos
          by_cases hv : v < 0
          · rw [if_pos hv] at hpos
            exact absurd hpos (by decide)
          · rw [if_neg hv] at hpos
            exact ⟨v, rfl, hpos⟩
    · rintro ⟨v, hr, hv⟩
      have he : h1 ≠ "" := by
        intro hcon
        rw [hcon] at hr
        cases hr
      simp only [parseIntHeader, if_neg he, hr]
      rw [if_neg (by omega)]
      exact hv

/-- C4 (counterexample): a response carrying only `RateLimit-Remaining: 0`
— a header that parses successfully per the claim — leaves the previous
snapshot in place instead of wholesale replacing it with the parsed
(all-zero) snapshot as the claim requires. -/
theorem rateLimitHeaders_zero_header_no_update :
    specHeaderParses "0" = true ∧
    parseRateLimitHeaders (some ⟨5, 7, some 9⟩) "" "0" "" = some ⟨5, 7, some 9⟩ ∧
    (⟨5, 7, some 9⟩ : RateLimitInfo) ≠
      ⟨parseIntHeader "", parseIntHeader "0", parseUnixTimestamp ""⟩ := by
  decide

/-- C4 (witness): replacement with a positive limit header regardless of
the previous snapshot, and the untouched-snapshot case for a response with
no parsable header. -/
theorem rateLimitHeaders_update_amended_witness :
    parseRateLimitHeaders none "100" "" "" =
      some ⟨parseIntHeader "100", parseIntHeader "", parseUnixTimestamp ""⟩ ∧
    parseRateLimitHeaders (some ⟨1, 2, some 3⟩) "" "x" "" = some ⟨1, 2, some 3⟩ ∧
    (0 < parseIntHeader "100" ↔ ∃ v, goAtoi "100" = some v ∧ 0 < v) :=
  ⟨(rateLimitHeaders_update_amended none "100" "" "").1 (by decide) none,
   (rateLimitHeaders_update_amended (some ⟨1, 2, some 3⟩) "" "x" "").2.1
     (by decide) (by decide) (by decide),
   (rateLimitHeaders_update_amended none "100" "" "").2.2⟩

theorem string_contains_iff {l : List String} {x : String} :
    l.contains x = true ↔ x ∈ l :=
  List.elem_iff

theorem isTagChar_not_space {c : Char} (h : isTagChar c = true) :
    isGoSpace c = false := by
  simp only [isTagChar, Bool.or_eq_true, Bool.and_eq_true, decide_eq_true_eq,
    beq_iff_eq] at h
  simp only [isGoSpace, Bool.or_eq_false_iff, beq_eq_false_iff_ne, ne_eq]
  omega

theorem isTagChar_lower_fixed {c : Char} (h : isTagChar c = true) :
    goToLowerChar c = c := by
  simp only [isTagChar, Bool.or_eq_true, Bool.and_eq_true, decide_eq_true_eq,
    beq_iff_eq] at h
  unfold goToLowerChar
  rw [if_neg (by omega)]

theorem dropWhile_eq_self_of_all {p : Char → Bool} :
    ∀ l : List Char, (∀ x ∈ l, p x = false) → l.dropWhile p = l := by
  intro l h
  cases l with
  | nil => rfl
  | cons a t => simp [List.dropWhile_cons, h a (by simp)]

theorem map_id_of_all {f : Char → Char} :
    ∀ l : List Char, (∀ x ∈ l, f x = x) → l.map f = l := by
  intro l
  induction l with
  | nil => intro _; rfl
  | cons a t ih =>
    intro h
    simp only [List.map_cons, h a (by simp),
      ih (fun x hx => h x (List.mem_cons_of_mem _ hx))]

theorem goTrimSpace_fixed {s : String} (h : s.data.all isTagChar = true) :
    goTrimSpace s = s := by
  have hall : ∀ x ∈ s.data, isGoSpace x = false := by
    intro x hx
    exact isTagChar_not_space (List.all_eq_true.mp h x hx)
  unfold goTrimSpace
  rw [dropWhile_eq_self_of_all _ hall,
    dropWhile_eq_self_of_all _ (fun x hx => hall x (List.mem_reverse.mp hx)),
    List.reverse_reverse]

theorem goToLower_fixed {s : String} (h : s.data.all isTagChar = true) :
    goToLower s = s := by
  unfold goToLower
  rw [map_id_of_all _ (fun x hx => isTagChar_lower_fixed (List.all_eq_true.mp h x hx))]

theorem normTag_fixed {s : String} (h : tagPatternMatch s = true) :
    normTag s = s := by
  have hall : s.data.all isTagChar = true := by
    simp only [tagPatternMatch, Bool.and_eq_true] at h
    exact h.2
  unfold normTag
  rw [goTrimSpace_fixed hall]
  exact goToLower_fixed hall

theorem mem_normalizeLoop :
    ∀ (ts seen : List String) (x : String), x ∈ normalizeLoop ts seen →
      tagPatternMatch x = true ∧ x ∉ seen := by
  intro ts
  induction ts with
  | nil =>
    intro seen x hx
    simp [normalizeLoop] at hx
  | cons t rest ih =>
    intro seen x hx
    unfold normalizeLoop at hx
    split_ifs at hx with hEmpty hSeen hPat
    · exact ih seen x hx
    · exact ih seen x hx
    · exact ih seen x hx
    · rcases List.mem_cons.mp hx with rfl | hx2
      · refine ⟨by simpa using hPat, fun hmem => hSeen ?_⟩
        exact string_contains_iff.mpr hmem
      · have hrec := ih (normTag t :: seen) x hx2
        exact ⟨hrec.1, fun hm => hrec.2 (List.mem_cons_of_mem _ hm)⟩

theorem normalizeLoop_nodup :
    ∀ (ts seen : List String), (normalizeLoop ts seen).Nodup := by
  intro ts
  induction ts with
  | nil =>
    intro seen
    simp [normalizeLoop]
  | cons t rest ih =>
    intro seen
    unfold normalizeLoop
    split_ifs with hEmpty hSeen hPat
    · exact ih seen
    · exact ih seen
    · exact ih seen
    · refine List.nodup_cons.mpr ⟨fun hmem => ?_, ih _⟩
      exact (mem_normalizeLoop rest _ _ hmem).2 (List.mem_cons_self _ _)

theorem normalizeLoop_id :
    ∀ (ts seen : List String), (∀ x ∈ ts, tagPatternMatch x = true) → ts.Nodup →
      (∀ x ∈ ts, x ∉ seen) → normalizeLoop ts seen = ts := by
  intro ts
  induction ts with
  | nil => intro seen _ _ _; rfl
  | cons t rest ih =>
    intro seen hval hnd hdisj
    have hpt : tagPatternMatch t = true := hval t (List.mem_cons_self _ _)
    have hfix : normTag t = t := normTag_fixed hpt
    unfold normalizeLoop
    rw [hfix]
    rw [if_neg (by
      intro he
      rw [he] at hpt
      exact absurd hpt (by decide))]
    rw [if_neg (by
      intro hcon
      exact hdisj t (List.mem_cons_self _ _) (string_contains_iff.mp hcon))]
    rw [if_neg (by simp [hpt])]
    have hndr := List.nodup_cons.mp hnd
    congr 1
    refine ih (t :: seen) (fun x hx => hval x (List.mem_cons_of_mem _ hx)) hndr.2 ?_
    intro x hx hmem
    rcases List.mem_cons.mp hmem with rfl | hmem2
    · exact hndr.1 hx
    · exact hdisj x (List.mem_cons_of_mem _ hx) hmem2

/-- C10: `NormalizeTags` is idempotent — applying it to its own output
returns that output unchanged: every tag it emits is already non-empty,
trimmed, lowercase, matches the tag pattern, and appears exactly once, and
an empty (`nil`) result stays empty. -/
theorem normalizeTags_idempotent (tags : List String) :
    NormalizeTags (NormalizeTags tags) = NormalizeTags tags := by
  by_cases h : tags.isEmpty
  · simp [NormalizeTags, h]
  · have hNT : NormalizeTags tags = normalizeLoop tags [] := by
      simp [NormalizeTags, h]
    rw [hNT]
    by_cases h2 : (normalizeLoop tags []).isEmpty
    · rw [List.isEmpty_iff.mp h2]
      rfl
    · unfold NormalizeTags
      rw [if_neg (by simp [h2])]
      exact normalizeLoop_id (normalizeLoop tags []) []
        (fun x hx => (mem_normalizeLoop tags [] x hx).1)
        (normalizeLoop_nodup tags [])
        (fun x _ hmem => by cases hmem)

end Pincho
